import Mathlib

/-!
Verification development for the `competitor_weakness_gpt` repository.

The repository has two Go programs:

* `src/mapper/mapper.go` — filters raw reviews to those rated below 5 and
  converts them field-for-field into the processor's `Review` shape.
* `src/script/script.go` — the bounded-concurrency batch processor: it walks
  the review list in chunks of `batchSize`, admits each review under a
  semaphore of capacity `maxParallelGoRoutines`, runs the classify call in a
  goroutine, and appends the per-review outcome to the shared slice
  `allAnalyzedReviews`, finally waiting on a `sync.WaitGroup`.

The processor is modelled as a small-step transition system `Step` over
`ProcState`.  The shared-slice append at line 221 of `script.go` is performed
with no synchronization (the source's own comment notes a mutex would be
required), so it is modelled as two separately schedulable atomic actions:
a `read` of the current slice value and a `write` of the extended copy.  The
semaphore is the `semCount` field, acquired by the main loop before spawning
(`sem <- struct\x7b\x7d` precedes `go func`), released when the goroutine
finishes.  The classify call (`analyzeReview`, a network call) is the injected
opaque capability `classify : Review → Except String AnalysisResult`.
-/

namespace Mapper

/-- Raw review record as decoded from the Outscraper JSON file
(`mapper.go`, `RawReview`).  The Go `float64` rating field is modelled as a
rational number: every value decodable from the JSON input is finite and the
comparison against 5 is exact on such values. -/
structure RawReview where
  reviewerID : String
  asin : String
  reviewerName : String
  reviewText : String
  overall : Rat
  unixReviewTime : Int
  reviewTime : String
deriving DecidableEq

/-- Target review shape (`mapper.go`, `Review`). -/
structure Review where
  reviewerID : String
  asin : String
  reviewerName : String
  reviewText : String
  overall : Rat
  unixReviewTime : Int
  reviewTime : String
deriving DecidableEq

/-- `mapper.go` line 34: `return review.Overall < 5`. -/
def isLowRated (review : RawReview) : Bool :=
  review.overall < 5

/-- `mapper.go` line 38: the Go struct conversion `Review(rawReview)`,
which copies each field in order. -/
def mapper (rawReview : RawReview) : Review :=
  ⟨rawReview.reviewerID, rawReview.asin, rawReview.reviewerName,
   rawReview.reviewText, rawReview.overall, rawReview.unixReviewTime,
   rawReview.reviewTime⟩

/-- `mapper.go` lines 56-61: the main filter loop accumulating
`lowRatedReviews` by appending `mapper(review)` whenever `isLowRated review`. -/
def lowRatedReviews (rawReviews : List RawReview) : List Review :=
  rawReviews.foldl
    (fun acc review => if isLowRated review then acc ++ [mapper review] else acc) []

end Mapper

namespace Script

/-- `script.go` lines 21-29: the review record fed to the processor. -/
structure Review where
  reviewerID : String
  asin : String
  reviewerName : String
  reviewText : String
  overall : Rat
  unixReviewTime : Int
  reviewTime : String
deriving DecidableEq

/-- `script.go` lines 32-36: the JSON shape returned by the model. -/
structure AnalysisResult where
  sentiment : String
  weaknesses : List String
  theme : String
deriving DecidableEq

/-- `script.go` lines 39-43: the per-review outcome.  `AnalysisResult` is a
pointer allowing nil, modelled as `Option`; `Error` is the empty string when
absent (Go zero value, `omitempty`). -/
structure ReviewWithAnalysis where
  review : Review
  analysisResult : Option AnalysisResult
  error : String
deriving DecidableEq

/-- `script.go` line 47. -/
def batchSize : Nat := 5

/-- `script.go` line 48. -/
def maxParallelGoRoutines : Nat := 10

/-- `script.go` lines 209-215: the goroutine builds
`ReviewWithAnalysis\x7bReview: r\x7d` and then either stores the analysis
(success) or the error's description (failure).  `classify` is the injected
opaque capability standing for `analyzeReview`. -/
def mkOutcome (classify : Review → Except String AnalysisResult)
    (r : Review) : ReviewWithAnalysis :=
  match classify r with
  | Except.ok analysis => ⟨r, some analysis, ""⟩
  | Except.error e => ⟨r, none, e⟩

/-- State of the processor (`main`, `script.go` lines 184-232).

* `pending`  — reviews not yet submitted by the main loop, in input order;
* `running`  — spawned goroutines holding a semaphore token, each with its
  review and, once it has performed the racy read of `allAnalyzedReviews`,
  the snapshot it read;
* `shared`   — the current value of `allAnalyzedReviews`;
* `semCount` — number of tokens currently held in the semaphore channel
  `sem` (line 188). -/
structure ProcState where
  pending : List Review
  running : List (Review × Option (List ReviewWithAnalysis))
  shared : List ReviewWithAnalysis
  semCount : Nat
deriving DecidableEq

/-- Initial state of `main` for a given review list: nothing submitted,
no goroutines, empty `allAnalyzedReviews`, empty semaphore. -/
def initState (reviews : List Review) : ProcState :=
  ⟨reviews, [], [], 0⟩

/-- `main` has passed `wg.Wait()` (line 232): every review was submitted and
every goroutine has finished; `shared` is the returned batch. -/
def isFinal (s : ProcState) : Prop :=
  s.pending = [] ∧ s.running = []

/-- One scheduler step of the processor.

* `submit` — the main loop performs `wg.Add(1)`, acquires a semaphore slot
  (`sem <- struct\x7b\x7d`, blocking unless `semCount < limit`) and spawns the
  goroutine for the next review (lines 199-202).
* `read` — a goroutine evaluates `classify` and reads the current value of
  the shared slice `allAnalyzedReviews` (first half of the unsynchronized
  append at line 221).
* `write` — the goroutine stores its snapshot extended with its outcome back
  into `allAnalyzedReviews` (second half of line 221), releases its semaphore
  slot and performs `wg.Done()` (deferred, lines 203-204). -/
inductive Step (classify : Review → Except String AnalysisResult) (limit : Nat) :
    ProcState → ProcState → Prop where
  | submit : ∀ (r : Review) (rest : List Review)
      (run : List (Review × Option (List ReviewWithAnalysis)))
      (sh : List ReviewWithAnalysis) (n : Nat),
      n < limit →
      Step classify limit ⟨r :: rest, run, sh, n⟩
        ⟨rest, run ++ [(r, none)], sh, n + 1⟩
  | read : ∀ (pend : List Review)
      (run1 : List (Review × Option (List ReviewWithAnalysis))) (r : Review)
      (run2 : List (Review × Option (List ReviewWithAnalysis)))
      (sh : List ReviewWithAnalysis) (n : Nat),
      Step classify limit ⟨pend, run1 ++ (r, none) :: run2, sh, n⟩
        ⟨pend, run1 ++ (r, some sh) :: run2, sh, n⟩
  | write : ∀ (pend : List Review)
      (run1 : List (Review × Option (List ReviewWithAnalysis))) (r : Review)
      (snap : List ReviewWithAnalysis)
      (run2 : List (Review × Option (List ReviewWithAnalysis)))
      (sh : List ReviewWithAnalysis) (n : Nat),
      Step classify limit ⟨pend, run1 ++ (r, some snap) :: run2, sh, n⟩
        ⟨pend, run1 ++ run2, snap ++ [mkOutcome classify r], n - 1⟩

/-- Reachability under the scheduler: an arbitrary interleaving of steps. -/
abbrev Reach (classify : Review → Except String AnalysisResult) (limit : Nat)
    (s0 s : ProcState) : Prop :=
  Relation.ReflTransGen (Step classify limit) s0 s

/-- Concrete deterministic classify capability used for the scheduler
scenarios: reviews whose text is "b" fail with "boom", others succeed.  This
instantiates the spec's injected `ClassifyOperation`. -/
def cfy : Review → Except String AnalysisResult :=
  fun r =>
    if r.reviewText = "b" then Except.error "boom"
    else Except.ok ⟨"Positive", [], "General"⟩

/-- First concrete input review (index 0); its classify call succeeds. -/
def rv0 : Review := ⟨"id0", "asinA", "name0", "a", 1, 0, "date0"⟩

/-- Second concrete input review (index 1); its classify call fails. -/
def rv1 : Review := ⟨"id1", "asinB", "name1", "b", 2, 1, "date1"⟩

/-- Every outcome of the list arises, via `mkOutcome`, from one of the input
reviews. -/
def fromInputs (classify : Review → Except String AnalysisResult)
    (rs : List Review) (l : List ReviewWithAnalysis) : Prop :=
  ∀ o ∈ l, ∃ r, r ∈ rs ∧ o = mkOutcome classify r

/-- Data invariant of the processor: pending and running reviews come from
the input, and the shared slice — as well as every snapshot of it held by a
goroutine — only contains outcomes of input reviews. -/
def stateOk (classify : Review → Except String AnalysisResult)
    (rs : List Review) (st : ProcState) : Prop :=
  (∀ r ∈ st.pending, r ∈ rs) ∧
  (∀ p ∈ st.running, p.1 ∈ rs ∧
    ∀ snap, p.2 = some snap → fromInputs classify rs snap) ∧
  fromInputs classify rs st.shared

/-- The outer chunking of `main` (`script.go` lines 190-195): for
`i = 0, bs, 2*bs, ...` the slice `reviews[i:min(i+bs, len)]`. -/
def chunksOf {α : Type} (bs : Nat) : List α → List (List α)
  | [] => []
  | x :: xs => (x :: xs).take bs :: chunksOf bs (xs.drop (bs - 1))
termination_by l => l.length
decreasing_by simp [List.length_drop]; omega

theorem reach_invariant {classify : Review → Except String AnalysisResult}
    {limit : Nat} {s0 s : ProcState} (I : ProcState → Prop)
    (hstep : ∀ t t2, I t → Step classify limit t t2 → I t2)
    (h0 : I s0) (h : Reach classify limit s0 s) : I s := by
  induction h with
  | refl => exact h0
  | tail _ hst ih => exact hstep _ _ ih hst

theorem sem_eq_running {classify : Review → Except String AnalysisResult}
    {limit : Nat} {rs : List Review} {s : ProcState}
    (h : Reach classify limit (initState rs) s) :
    s.semCount = s.running.length := by
  refine reach_invariant (fun st => st.semCount = st.running.length) ?_ rfl h
  intro t t2 ht hst
  cases hst with
  | submit r rest run sh n hn =>
      simp only at ht ⊢
      simp [List.length_append, ← ht]
  | read pend run1 r run2 sh n =>
      simp only at ht ⊢
      simpa using ht
  | write pend run1 r snap run2 sh n =>
      simp only at ht ⊢
      simp [List.length_append] at ht ⊢
      omega

theorem running_le_limit {classify : Review → Except String AnalysisResult}
    {limit : Nat} {rs : List Review} {s : ProcState}
    (h : Reach classify limit (initState rs) s) :
    s.running.length ≤ limit := by
  refine reach_invariant
    (fun st => st.semCount = st.running.length ∧ st.running.length ≤ limit)
    ?_ ⟨rfl, by simp [initState]⟩ h |>.2
  intro t t2 ht hst
  cases hst with
  | submit r rest run sh n hn =>
      obtain ⟨h1, h2⟩ := ht
      simp only at h1 h2 ⊢
      constructor
      · simp [List.length_append, ← h1]
      · simp [List.length_append]
        omega
  | read pend run1 r run2 sh n =>
      obtain ⟨h1, h2⟩ := ht
      simp only at h1 h2 ⊢
      constructor
      · simpa using h1
      · simpa using h2
  | write pend run1 r snap run2 sh n =>
      obtain ⟨h1, h2⟩ := ht
      simp only at h1 h2 ⊢
      simp [List.length_append] at h1 h2 ⊢
      omega

/-- Schedule exposing the lost update of the unsynchronized append: both
goroutines read the empty slice before either writes, goroutine 0 writes,
then goroutine 1 overwrites the slice with its own one-element value.  The
run ends in a final state whose batch holds a single entry. -/
theorem chainLost :
    Reach cfy 2 (initState [rv0, rv1]) ⟨[], [], [mkOutcome cfy rv1], 0⟩ := by
  refine Relation.ReflTransGen.head
    (Step.submit rv0 [rv1] [] [] 0 (by decide)) ?_
  refine Relation.ReflTransGen.head
    (Step.submit rv1 [] [(rv0, none)] [] 1 (by decide)) ?_
  refine Relation.ReflTransGen.head
    (Step.read [] [] rv0 [(rv1, none)] [] 2) ?_
  refine Relation.ReflTransGen.head
    (Step.read [] [(rv0, some [])] rv1 [] [] 2) ?_
  refine Relation.ReflTransGen.head
    (Step.write [] [] rv0 [] [(rv1, some [])] [] 2) ?_
  refine Relation.ReflTransGen.head
    (Step.write [] [] rv1 [] [] [mkOutcome cfy rv0] 1) ?_
  exact Relation.ReflTransGen.refl

/-- Same racy schedule with the two writes swapped: goroutine 1 (the failing
review) writes first and goroutine 0 overwrites it, so the failure record for
`rv1` is lost from the final batch. -/
theorem chainLostFail :
    Reach cfy 2 (initState [rv0, rv1]) ⟨[], [], [mkOutcome cfy rv0], 0⟩ := by
  refine Relation.ReflTransGen.head
    (Step.submit rv0 [rv1] [] [] 0 (by decide)) ?_
  refine Relation.ReflTransGen.head
    (Step.submit rv1 [] [(rv0, none)] [] 1 (by decide)) ?_
  refine Relation.ReflTransGen.head
    (Step.read [] [] rv0 [(rv1, none)] [] 2) ?_
  refine Relation.ReflTransGen.head
    (Step.read [] [(rv0, some [])] rv1 [] [] 2) ?_
  refine Relation.ReflTransGen.head
    (Step.write [] [(rv0, some [])] rv1 [] [] [] 2) ?_
  refine Relation.ReflTransGen.head
    (Step.write [] [] rv0 [] [] [mkOutcome cfy rv1] 1) ?_
  exact Relation.ReflTransGen.refl

/-- Race-free schedule in which review 1's goroutine completes before review
0's: the appends do not interleave, yet the batch comes out in completion
order `[outcome of rv1, outcome of rv0]`, reversed with respect to input
order. -/
theorem chainReversed :
    Reach cfy 2 (initState [rv0, rv1])
      ⟨[], [], [mkOutcome cfy rv1, mkOutcome cfy rv0], 0⟩ := by
  refine Relation.ReflTransGen.head
    (Step.submit rv0 [rv1] [] [] 0 (by decide)) ?_
  refine Relation.ReflTransGen.head
    (Step.submit rv1 [] [(rv0, none)] [] 1 (by decide)) ?_
  refine Relation.ReflTransGen.head
    (Step.read [] [(rv0, none)] rv1 [] [] 2) ?_
  refine Relation.ReflTransGen.head
    (Step.write [] [(rv0, none)] rv1 [] [] [] 2) ?_
  refine Relation.ReflTransGen.head
    (Step.read [] [] rv0 [] [mkOutcome cfy rv1] 1) ?_
  refine Relation.ReflTransGen.head
    (Step.write [] [] rv0 [mkOutcome cfy rv1] [] [mkOutcome cfy rv1] 1) ?_
  exact Relation.ReflTransGen.refl

/-- Fully serialized in-input-order schedule: each goroutine finishes before
the next is submitted, producing the batch in input order. -/
theorem chainSerial :
    Reach cfy 2 (initState [rv0, rv1])
      ⟨[], [], [mkOutcome cfy rv0, mkOutcome cfy rv1], 0⟩ := by
  refine Relation.ReflTransGen.head
    (Step.submit rv0 [rv1] [] [] 0 (by decide)) ?_
  refine Relation.ReflTransGen.head
    (Step.read [rv1] [] rv0 [] [] 1) ?_
  refine Relation.ReflTransGen.head
    (Step.write [rv1] [] rv0 [] [] [] 1) ?_
  refine Relation.ReflTransGen.head
    (Step.submit rv1 [] [] [mkOutcome cfy rv0] 0 (by decide)) ?_
  refine Relation.ReflTransGen.head
    (Step.read [] [] rv1 [] [mkOutcome cfy rv0] 1) ?_
  refine Relation.ReflTransGen.head
    (Step.write [] [] rv1 [mkOutcome cfy rv0] [] [mkOutcome cfy rv0] 1) ?_
  exact Relation.ReflTransGen.refl

end Script

open Script in
/-- C1: the claim states that for every input of N items and limit ≥ 1 the
returned batch has exactly N entries, no entry lost or duplicated, regardless
of scheduling.  The code violates this: the unsynchronized append to
`allAnalyzedReviews` (script.go line 221) loses an entry when two goroutines
interleave their read and write of the slice.  This theorem exhibits a
complete run on the 2-element input `[rv0, rv1]` with limit 2 that ends in a
final state whose batch has length 1. -/
theorem C1_batch_length_violated :
    Reach cfy 2 (initState [rv0, rv1]) ⟨[], [], [mkOutcome cfy rv1], 0⟩ ∧
    isFinal ⟨[], [], [mkOutcome cfy rv1], 0⟩ ∧
    ([rv0, rv1] : List Review).length = 2 ∧
    (ProcState.mk [] [] [mkOutcome cfy rv1] 0).shared.length = 1 :=
  ⟨chainLost, ⟨rfl, rfl⟩, rfl, rfl⟩

open Script in
/-- C2: the claim states that entry i of the returned batch is the outcome of
input item i, independent of completion order.  The code appends outcomes in
completion order, so a schedule in which review 1 finishes before review 0
puts review 1's outcome at position 0.  This theorem exhibits such a complete
(race-free) run: the final batch's head is the outcome of `rv1`, not of the
0-th input `rv0`. -/
theorem C2_index_alignment_violated :
    Reach cfy 2 (initState [rv0, rv1])
      ⟨[], [], [mkOutcome cfy rv1, mkOutcome cfy rv0], 0⟩ ∧
    isFinal ⟨[], [], [mkOutcome cfy rv1, mkOutcome cfy rv0], 0⟩ ∧
    ([mkOutcome cfy rv1, mkOutcome cfy rv0] : List ReviewWithAnalysis).get? 0
      = some (mkOutcome cfy rv1) ∧
    (mkOutcome cfy rv1).review ≠ rv0 :=
  ⟨chainReversed, ⟨rfl, rfl⟩, rfl, by decide⟩

open Script in
/-- C3: at every point of the run, the number of admitted-but-unsettled
attempts (goroutines holding a semaphore token) is at most the configured
limit, and when the limit is reached no further review can be admitted in the
next step: any enabled step leaves `pending` untouched, i.e. the main loop's
`sem <- struct\x7b\x7d` blocks until a running attempt releases its token. -/
theorem C3_admission_cap (classify : Review → Except String AnalysisResult)
    (limit : Nat) (rs : List Review) (s : ProcState)
    (h : Reach classify limit (initState rs) s) :
    s.running.length ≤ limit ∧
      (s.running.length = limit →
        ∀ s2, Step classify limit s s2 → s2.pending = s.pending) := by
  refine ⟨running_le_limit h, ?_⟩
  intro hfull s2 hst
  have hsem := sem_eq_running h
  cases hst with
  | submit r rest run sh n hn =>
      exfalso
      simp only at hsem hfull
      omega
  | read pend run1 r run2 sh n => rfl
  | write pend run1 r snap run2 sh n => rfl

open Script in
/-- Witness for C3: a concrete reachable state with both goroutines admitted
at limit 2, where the bound and the blocking property are checked. -/
theorem C3_admission_cap_witness :
    Reach cfy 2 (initState [rv0, rv1]) ⟨[], [(rv0, none), (rv1, none)], [], 2⟩ ∧
    ((ProcState.mk [] [(rv0, none), (rv1, none)] [] 2).running.length ≤ 2 ∧
      ((ProcState.mk [] [(rv0, none), (rv1, none)] [] 2).running.length = 2 →
        ∀ s2, Step cfy 2 ⟨[], [(rv0, none), (rv1, none)], [], 2⟩ s2 →
          s2.pending = (ProcState.mk [] [(rv0, none), (rv1, none)] [] 2).pending)) := by
  have hr : Reach cfy 2 (initState [rv0, rv1])
      ⟨[], [(rv0, none), (rv1, none)], [], 2⟩ := by
    refine Relation.ReflTransGen.head
      (Step.submit rv0 [rv1] [] [] 0 (by decide)) ?_
    refine Relation.ReflTransGen.head
      (Step.submit rv1 [] [(rv0, none)] [] 1 (by decide)) ?_
    exact Relation.ReflTransGen.refl
  exact ⟨hr, C3_admission_cap cfy 2 [rv0, rv1] _ hr⟩

open Script in
/-- C5: the claim states that the call returns only after every attempt has
settled and every position of the batch carries exactly one outcome.  The
first half holds (`wg.Wait`), but under a racy schedule a settled attempt's
outcome is missing from the batch: this complete run ends with every attempt
finished, yet the failing review `rv1` has no entry in the returned batch. -/
theorem C5_settled_outcome_lost :
    Reach cfy 2 (initState [rv0, rv1]) ⟨[], [], [mkOutcome cfy rv0], 0⟩ ∧
    isFinal ⟨[], [], [mkOutcome cfy rv0], 0⟩ ∧
    (ProcState.mk [] [] [mkOutcome cfy rv0] 0).shared = [mkOutcome cfy rv0] ∧
    (mkOutcome cfy rv0).review ≠ rv1 :=
  ⟨chainLostFail, ⟨rfl, rfl⟩, rfl, by decide⟩

open Script in
/-- C6: the claim states that the returned batch does not depend on the
scheduling of the attempts (deterministic content given a deterministic
classify).  Two complete runs from the same initial state — one serialized in
input order, one with review 1 completing first — return different batches. -/
theorem C6_schedule_dependent_output :
    Reach cfy 2 (initState [rv0, rv1])
      ⟨[], [], [mkOutcome cfy rv0, mkOutcome cfy rv1], 0⟩ ∧
    Reach cfy 2 (initState [rv0, rv1])
      ⟨[], [], [mkOutcome cfy rv1, mkOutcome cfy rv0], 0⟩ ∧
    isFinal ⟨[], [], [mkOutcome cfy rv0, mkOutcome cfy rv1], 0⟩ ∧
    isFinal ⟨[], [], [mkOutcome cfy rv1, mkOutcome cfy rv0], 0⟩ ∧
    (ProcState.mk [] [] [mkOutcome cfy rv0, mkOutcome cfy rv1] 0).shared ≠
      (ProcState.mk [] [] [mkOutcome cfy rv1, mkOutcome cfy rv0] 0).shared :=
  ⟨chainSerial, chainReversed, ⟨rfl, rfl⟩, ⟨rfl, rfl⟩, by decide⟩

open Script in
/-- C7: every semaphore acquisition is paired with exactly one release, on
the failure path as well (the step relation releases in `write` regardless of
the classify outcome, mirroring the deferred `<-sem`).  Consequently the
token count always equals the number of in-flight attempts — no token ever
leaks — and once the run is final all `limit` tokens are back (`semCount`
is 0).  Moreover the releasing step is enabled for every attempt that is
ready to finish: the release never blocks. -/
theorem C7_token_discipline (classify : Review → Except String AnalysisResult)
    (limit : Nat) (rs : List Review) (s : ProcState)
    (h : Reach classify limit (initState rs) s) :
    s.semCount = s.running.length ∧
    (isFinal s → s.semCount = 0) ∧
    (∀ pend run1 r snap run2 sh n,
      s = ⟨pend, run1 ++ (r, some snap) :: run2, sh, n⟩ →
      Step classify limit s ⟨pend, run1 ++ run2, snap ++ [mkOutcome classify r], n - 1⟩) := by
  have hsem := sem_eq_running h
  refine ⟨hsem, ?_, ?_⟩
  · intro hf
    rw [hsem, hf.2]
    rfl
  · intro pend run1 r snap run2 sh n hs
    rw [hs]
    exact Step.write pend run1 r snap run2 sh n

open Script in
/-- Witness for C7: a concrete reachable state with one attempt in flight and
ready to release, where all three conjuncts are checked. -/
theorem C7_token_discipline_witness :
    Reach cfy 1 (initState [rv0]) ⟨[], [(rv0, some [])], [], 1⟩ ∧
    ((ProcState.mk [] [(rv0, some [])] [] 1).semCount
        = (ProcState.mk [] [(rv0, some [])] [] 1).running.length ∧
      (isFinal (ProcState.mk [] [(rv0, some [])] [] 1) →
        (ProcState.mk [] [(rv0, some [])] [] 1).semCount = 0) ∧
      (∀ pend run1 r snap run2 sh n,
        (ProcState.mk [] [(rv0, some [])] [] 1) = ⟨pend, run1 ++ (r, some snap) :: run2, sh, n⟩ →
        Step cfy 1 ⟨[], [(rv0, some [])], [], 1⟩
          ⟨pend, run1 ++ run2, snap ++ [mkOutcome cfy r], n - 1⟩)) := by
  have hr : Reach cfy 1 (initState [rv0]) ⟨[], [(rv0, some [])], [], 1⟩ := by
    refine Relation.ReflTransGen.head
      (Step.submit rv0 [] [] [] 0 (by decide)) ?_
    refine Relation.ReflTransGen.head
      (Step.read [] [] rv0 [] [] 1) ?_
    exact Relation.ReflTransGen.refl
  exact ⟨hr, C7_token_discipline cfy 1 [rv0] _ hr⟩

namespace Script

theorem step_src_not_final {classify : Review → Except String AnalysisResult}
    {limit : Nat} {s s2 : ProcState} (hst : Step classify limit s s2) :
    ¬ isFinal s := by
  cases hst with
  | submit r rest run sh n hn =>
      intro hf
      simp [isFinal] at hf
  | read pend run1 r run2 sh n =>
      intro hf
      have := hf.2
      simp at this
  | write pend run1 r snap run2 sh n =>
      intro hf
      have := hf.2
      simp at this

theorem stateOk_reach {classify : Review → Except String AnalysisResult}
    {limit : Nat} {rs : List Review} {s : ProcState}
    (h : Reach classify limit (initState rs) s) : stateOk classify rs s := by
  refine reach_invariant (stateOk classify rs) ?_ ?_ h
  · intro t t2 ht hst
    obtain ⟨hp, hr, hs⟩ := ht
    cases hst with
    | submit r rest run sh n hn =>
        simp only at hp hr hs
        refine ⟨?_, ?_, hs⟩
        · intro x hx
          exact hp x (List.mem_cons_of_mem _ hx)
        · intro p hpmem
          rcases List.mem_append.mp hpmem with h1 | h1
          · exact hr p h1
          · have hpr : p = (r, none) := by simpa using h1
            subst hpr
            refine ⟨hp r (List.mem_cons_self _ _), ?_⟩
            intro snap hsnap
            exact absurd hsnap (by simp)
    | read pend run1 r run2 sh n =>
        simp only at hp hr hs
        refine ⟨hp, ?_, hs⟩
        intro p hpmem
        rcases List.mem_append.mp hpmem with h1 | h1
        · exact hr p (List.mem_append.mpr (Or.inl h1))
        · rcases List.mem_cons.mp h1 with h2 | h2
          · subst h2
            refine ⟨(hr (r, none) (by simp)).1, ?_⟩
            intro snap hsnap
            obtain rfl : sh = snap := Option.some.inj hsnap
            exact hs
          · exact hr p (List.mem_append.mpr (Or.inr (List.mem_cons_of_mem _ h2)))
    | write pend run1 r snap run2 sh n =>
        simp only at hp hr hs
        have hg := hr (r, some snap) (by simp)
        refine ⟨hp, ?_, ?_⟩
        · intro p hpmem
          rcases List.mem_append.mp hpmem with h1 | h1
          · exact hr p (List.mem_append.mpr (Or.inl h1))
          · exact hr p (List.mem_append.mpr (Or.inr (List.mem_cons_of_mem _ h1)))
        · intro o ho
          rcases List.mem_append.mp ho with h1 | h1
          · exact hg.2 snap rfl o h1
          · have ho2 : o = mkOutcome classify r := by simpa using h1
            exact ⟨r, hg.1, ho2⟩
  · refine ⟨fun r hr => hr, ?_, ?_⟩
    · intro p hp
      simp [initState] at hp
    · intro o ho
      simp [initState] at ho

theorem step_progress {classify : Review → Except String AnalysisResult}
    {limit : Nat} {rs : List Review} {s : ProcState}
    (hlim : 1 ≤ limit) (h : Reach classify limit (initState rs) s)
    (hnf : ¬ isFinal s) : ∃ s2, Step classify limit s s2 := by
  have hsem := sem_eq_running h
  obtain ⟨pend, run, sh, n⟩ := s
  simp only at hsem
  cases run with
  | nil =>
      cases pend with
      | nil => exact absurd ⟨rfl, rfl⟩ hnf
      | cons r rest =>
          simp at hsem
          subst hsem
          exact ⟨_, Step.submit r rest [] sh 0 (by omega)⟩
  | cons p prest =>
      obtain ⟨pr, po⟩ := p
      cases po with
      | none => exact ⟨_, Step.read pend [] pr prest sh n⟩
      | some snap => exact ⟨_, Step.write pend [] pr snap prest sh n⟩

theorem chunksOf_join {α : Type} (bs : Nat) (hbs : 1 ≤ bs) (l : List α) :
    (chunksOf bs l).flatten = l := by
  induction l using chunksOf.induct bs with
  | case1 => simp [chunksOf]
  | case2 x xs ih =>
      rw [chunksOf]
      simp only [List.flatten_cons]
      rw [ih]
      obtain ⟨b, rfl⟩ : ∃ b, bs = b + 1 := ⟨bs - 1, by omega⟩
      rw [List.take_succ_cons, Nat.succ_sub_one, List.cons_append,
        List.take_append_drop]

end Script

namespace Mapper

theorem foldl_append_filter_map {α β : Type} (p : α → Bool) (f : α → β) :
    ∀ (l : List α) (acc : List β),
      l.foldl (fun a x => if p x then a ++ [f x] else a) acc
        = acc ++ (l.filter p).map f := by
  intro l
  induction l with
  | nil => intro acc; simp
  | cons x xs ih =>
      intro acc
      cases hp : p x <;> simp [List.foldl_cons, hp, ih, List.filter_cons]

end Mapper

open Script in
/-- C4 counterexample: review `rv1` (at input index 1) fails with "boom", yet
there is a complete run whose batch holds, at position 1, the success outcome
of `rv0` rather than `rv1`'s failure record — the failure is not recorded at
the failing item's position, refuting the claim as stated. -/
theorem C4_failure_position_cex :
    cfy rv1 = Except.error "boom" ∧
    Reach cfy 2 (initState [rv0, rv1])
      ⟨[], [], [mkOutcome cfy rv1, mkOutcome cfy rv0], 0⟩ ∧
    isFinal ⟨[], [], [mkOutcome cfy rv1, mkOutcome cfy rv0], 0⟩ ∧
    ([mkOutcome cfy rv1, mkOutcome cfy rv0] : List ReviewWithAnalysis).get? 1
      = some (mkOutcome cfy rv0) ∧
    mkOutcome cfy rv0 ≠ ⟨rv1, none, "boom"⟩ :=
  ⟨rfl, chainReversed, ⟨rfl, rfl⟩, rfl, by decide⟩

open Script in
/-- C4 amended: for every review whose classify call fails, the computed
outcome carries the full review (its identity) and the underlying error's
description, with no analysis attached; every entry of the shared batch of
any reachable state is such a computed outcome of one of the input reviews —
failures are returned as data, never propagated; and a failing attempt aborts
nothing: from any reachable non-final state some step is enabled, so the call
always makes progress towards completion.  (The failure record lands at the
completion-order position rather than the item's input index, and a racy
append may drop it — see the counterexample.) -/
theorem C4_failure_as_data (classify : Review → Except String AnalysisResult)
    (limit : Nat) (rs : List Review) (s : ProcState)
    (hlim : 1 ≤ limit) (h : Reach classify limit (initState rs) s) :
    (∀ r e, classify r = Except.error e → mkOutcome classify r = ⟨r, none, e⟩) ∧
    (∀ o, o ∈ s.shared → ∃ r, r ∈ rs ∧ o = mkOutcome classify r) ∧
    (¬ isFinal s → ∃ s2, Step classify limit s s2) := by
  refine ⟨?_, (stateOk_reach h).2.2, step_progress hlim h⟩
  intro r e he
  simp [mkOutcome, he]

open Script in
/-- Witness for the amended C4, at the concrete failing run of
`chainReversed`. -/
theorem C4_failure_as_data_witness :
    (1 ≤ 2 ∧ Reach cfy 2 (initState [rv0, rv1])
      ⟨[], [], [mkOutcome cfy rv1, mkOutcome cfy rv0], 0⟩) ∧
    ((∀ r e, cfy r = Except.error e → mkOutcome cfy r = ⟨r, none, e⟩) ∧
     (∀ o, o ∈ (ProcState.mk [] [] [mkOutcome cfy rv1, mkOutcome cfy rv0] 0).shared →
        ∃ r, r ∈ [rv0, rv1] ∧ o = mkOutcome cfy r) ∧
     (¬ isFinal (ProcState.mk [] [] [mkOutcome cfy rv1, mkOutcome cfy rv0] 0) →
        ∃ s2, Step cfy 2 ⟨[], [], [mkOutcome cfy rv1, mkOutcome cfy rv0], 0⟩ s2)) :=
  ⟨⟨by decide, chainReversed⟩,
    C4_failure_as_data cfy 2 [rv0, rv1] _ (by decide) chainReversed⟩

open Script in
/-- C8: on the empty input the initial state is already final with an empty
batch — the call returns immediately, without blocking — and no step
whatsoever (in particular no admission and no classify invocation) is
possible: the only reachable state is the initial state itself. -/
theorem C8_empty_input (classify : Review → Except String AnalysisResult)
    (limit : Nat) :
    isFinal (initState ([] : List Review)) ∧
    (initState ([] : List Review)).shared = [] ∧
    (∀ s2 : ProcState, ¬ Step classify limit (initState []) s2) ∧
    (∀ s, Reach classify limit (initState []) s → s = initState []) := by
  refine ⟨⟨rfl, rfl⟩, rfl, ?_, ?_⟩
  · intro s2 hst
    exact step_src_not_final hst ⟨rfl, rfl⟩
  · intro s h
    refine reach_invariant (fun st => st = initState []) ?_ rfl h
    intro t t2 ht hst
    subst ht
    exact absurd ⟨rfl, rfl⟩ (step_src_not_final hst)

open Script in
/-- Witness for C8 at a concrete classify and limit: the initial state is
reachable from itself and is what every reachable state equals. -/
theorem C8_empty_input_witness :
    Reach cfy 3 (initState ([] : List Review)) (initState []) ∧
    initState ([] : List Review) = initState [] :=
  ⟨Relation.ReflTransGen.refl,
    (C8_empty_input cfy 3).2.2.2 _ Relation.ReflTransGen.refl⟩

open Script in
/-- C9: the outer chunking of `main` is behaviorally equivalent to a single
flat loop: submitting the concatenation of the `batchSize`-chunks is
submitting the original list — the chunks flatten back to the input, the
initial states coincide, and therefore the chunked and flat schedulers have
exactly the same reachable states (in particular the same final batches, with
each item admitted exactly once by the unique `submit` that pops it). -/
theorem C9_chunking_equivalent (l : List Review) :
    (chunksOf batchSize l).flatten = l ∧
    initState ((chunksOf batchSize l).flatten) = initState l ∧
    (∀ classify limit s,
      Reach classify limit (initState ((chunksOf batchSize l).flatten)) s ↔
        Reach classify limit (initState l) s) := by
  have hj : (chunksOf batchSize l).flatten = l :=
    chunksOf_join batchSize (by decide) l
  exact ⟨hj, by rw [hj], fun classify limit s => by rw [hj]⟩

open Mapper in
/-- C10: the mapper outputs exactly the raw reviews whose rating is strictly
below 5, in input order, each converted field-for-field; a review rated
exactly 5 (or higher) is excluded since `isLowRated` decides `overall < 5`,
and no field is modified by the conversion. -/
theorem C10_mapper_filters_low_rated (rawReviews : List RawReview) :
    lowRatedReviews rawReviews
      = (rawReviews.filter isLowRated).map mapper ∧
    (∀ r : RawReview, isLowRated r = true ↔ r.overall < 5) ∧
    (∀ r : RawReview, mapper r =
      ⟨r.reviewerID, r.asin, r.reviewerName, r.reviewText, r.overall,
        r.unixReviewTime, r.reviewTime⟩) := by
  refine ⟨?_, ?_, fun r => rfl⟩
  · simpa using foldl_append_filter_map isLowRated mapper rawReviews []
  · intro r
    simp [isLowRated]
